import Mathlib

/-!
Verification development for the `game-ai` repository: a tabular Q-learning
bot for a tick-driven territory-conquest game.

The Python data structures are shallowly embedded as follows.

* Python `dict` (insertion-ordered, update-in-place) is modelled as an
  association list `List (κ × β)`; `alLookup` returns the value of the first
  (and in any dict-produced list, only) matching key, `alInsert` overwrites
  the first occurrence in place or appends at the end, exactly like a Python
  dict assignment.
* Python floats are modelled as exact rationals `ℚ`.
* The Q-table `dict[str, dict[str, float]]` becomes
  `QT := List (String × List (String × ℚ))`.
* File I/O is modelled by passing the on-disk image (`Option QT`) explicitly
  and recording the file operations a call performs.
-/

set_option maxHeartbeats 1000000
set_option maxRecDepth 100000

namespace GameAI

/-! ## Association lists: the embedding of Python `dict` -/

variable {κ : Type} {β : Type} [DecidableEq κ]

/-- First-match lookup, the embedding of `d.get(k)` / `d[k]`. -/
def alLookup : List (κ × β) → κ → Option β
  | [], _ => none
  | p :: l, k => if p.1 = k then some p.2 else alLookup l k

/-- In-place update or append, the embedding of `d[k] = v`: a present key
keeps its position (Python dicts preserve insertion order on overwrite),
a fresh key is appended at the end. -/
def alInsert : List (κ × β) → κ → β → List (κ × β)
  | [], k, v => [(k, v)]
  | p :: l, k, v => if p.1 = k then (k, v) :: l else p :: alInsert l k v

@[simp] theorem alLookup_nil (k : κ) : alLookup ([] : List (κ × β)) k = none := rfl

theorem alLookup_cons (p : κ × β) (l : List (κ × β)) (k : κ) :
    alLookup (p :: l) k = if p.1 = k then some p.2 else alLookup l k := rfl

/-- Lookup after insert: the inserted key reads back the new value, every
other key is unaffected. Holds even for lists with duplicate keys because
both `alLookup` and `alInsert` operate on the first occurrence. -/
theorem alLookup_alInsert (l : List (κ × β)) (k : κ) (v : β) (k' : κ) :
    alLookup (alInsert l k v) k' = if k' = k then some v else alLookup l k' := by
  induction l with
  | nil =>
    show (if k = k' then some v else none) = if k' = k then some v else none
    by_cases h : k' = k
    · rw [if_pos h.symm, if_pos h]
    · rw [if_neg (fun hh => h hh.symm), if_neg h]
  | cons p t ih =>
    by_cases hp : p.1 = k
    · simp only [alInsert, if_pos hp]
      by_cases h : k' = k
      · subst h
        simp [alLookup_cons]
      · rw [alLookup_cons, if_neg (fun hh : k = k' => h hh.symm), if_neg h,
          alLookup_cons, if_neg (fun hh : p.1 = k' => h (hp.symm.trans hh).symm)]
    · simp only [alInsert, if_neg hp]
      by_cases hpk : p.1 = k'
      · have hk : ¬k' = k := fun hh => hp (hpk.trans hh)
        rw [alLookup_cons, if_pos hpk, if_neg hk, alLookup_cons, if_pos hpk]
      · rw [alLookup_cons, if_neg hpk, ih, alLookup_cons, if_neg hpk]

/-- Inserting the value a key already holds is a no-op (the update happens
in place at the first occurrence, which already carries that value). -/
theorem alInsert_eq_of_lookup (l : List (κ × β)) (k : κ) (v : β)
    (h : alLookup l k = some v) : alInsert l k v = l := by
  induction l with
  | nil => simp [alLookup] at h
  | cons p t ih =>
    obtain ⟨a, b⟩ := p
    by_cases hp : a = k
    · subst hp
      rw [alLookup_cons, if_pos rfl] at h
      injection h with h2
      simp [alInsert, h2.symm]
    · rw [alLookup_cons, if_neg hp] at h
      simp [alInsert, hp, ih h]

/-- A value found by lookup is one of the stored values. -/
theorem alLookup_mem_values (l : List (κ × β)) (k : κ) (v : β)
    (h : alLookup l k = some v) : v ∈ l.map Prod.snd := by
  induction l with
  | nil => simp [alLookup] at h
  | cons p t ih =>
    by_cases hp : p.1 = k
    · simp [alLookup, hp] at h
      simp [h]
    · simp [alLookup, hp] at h
      simp [ih h]

/-- A successful lookup means the key occurs in the list. -/
theorem alLookup_isSome_mem (l : List (κ × β)) (k : κ)
    (h : (alLookup l k).isSome) : k ∈ l.map Prod.fst := by
  induction l with
  | nil => simp [alLookup] at h
  | cons p t ih =>
    rw [List.map_cons]
    by_cases hp : p.1 = k
    · exact hp ▸ List.mem_cons_self _ _
    · rw [alLookup_cons, if_neg hp] at h
      exact List.mem_cons_of_mem _ (ih h)

/-- A key absent from the list looks up to `none`. -/
theorem alLookup_eq_none_of_not_mem (l : List (κ × β)) (k : κ)
    (h : k ∉ l.map Prod.fst) : alLookup l k = none := by
  induction l with
  | nil => rfl
  | cons p t ih =>
    rw [List.map_cons, List.mem_cons] at h
    push_neg at h
    rw [alLookup_cons, if_neg (fun hh => h.1 hh.symm), ih h.2]

/-- A key occurring in the list looks up successfully. -/
theorem alLookup_isSome_of_mem (l : List (κ × β)) (k : κ)
    (h : k ∈ l.map Prod.fst) : (alLookup l k).isSome := by
  induction l with
  | nil => simp at h
  | cons p t ih =>
    rw [List.map_cons, List.mem_cons] at h
    rw [alLookup_cons]
    by_cases hp : p.1 = k
    · simp [hp]
    · rcases h with h | h
      · exact absurd h.symm hp
      · simpa [hp] using ih h

/-! ## The Q-table (`src/lib/qtable.py`)

`QTable._local_qtable : dict[Any, dict[str, float]]`, with state keys
specialised to the `str` keys the agents actually use. -/

/-- The in-memory Q-table: state key ↦ (action key ↦ Q-value). -/
abbrev QT := List (String × List (String × ℚ))

/-- Two-level lookup: `some v` iff both the state key and the action key are
present (embeds `state_key in table and action_key in table[state_key]`). -/
def qtGet (qt : QT) (s a : String) : Option ℚ :=
  (alLookup qt s).bind (fun inner => alLookup inner a)

/-- Two-level lookup with the Python default `0.0` at both levels (embeds
`table[state_key].get(action_key, 0.0)` with a missing state also giving 0). -/
def qtGet0 (qt : QT) (s a : String) : ℚ :=
  (qtGet qt s a).getD 0

/-- Embeds `table[state_key][action_key] = v` (the callers below only do this
after ensuring the state key exists; for an absent state key this creates it,
matching `dict` autovivification as done explicitly in the source). -/
def qtSet (qt : QT) (s a : String) (v : ℚ) : QT :=
  alInsert qt s (alInsert ((alLookup qt s).getD []) a v)

theorem qtGet_qtSet (qt : QT) (s a : String) (v : ℚ) (s' a' : String) :
    qtGet (qtSet qt s a v) s' a' =
      if s' = s ∧ a' = a then some v else qtGet qt s' a' := by
  unfold qtGet qtSet
  rw [alLookup_alInsert]
  by_cases hs : s' = s
  · subst hs
    rw [if_pos rfl, Option.some_bind, alLookup_alInsert]
    by_cases ha : a' = a
    · rw [if_pos ha, if_pos ⟨rfl, ha⟩]
    · rw [if_neg ha, if_neg (fun hh => ha hh.2)]
      cases h : alLookup qt s' with
      | none => simp
      | some inner => simp
  · rw [if_neg hs, if_neg (fun hh => hs hh.1)]

/-- Setting one pair does not change the default-0 value of any other pair. -/
theorem qtGet0_qtSet_ne (qt : QT) (s a : String) (v : ℚ) (s' a' : String)
    (h : ¬(s' = s ∧ a' = a)) : qtGet0 (qtSet qt s a v) s' a' = qtGet0 qt s' a' := by
  unfold qtGet0
  rw [qtGet_qtSet, if_neg h]

/-! ### `QTable._merge_qtable`, `QTable._load_and_merge`, `QTable.save`
(src/lib/qtable.py lines 77–121)

`save()` holds the process-wide asyncio lock and an advisory file lock; the
concurrency is collapsed here into a sequential function from the pair
(on-disk image, in-memory table) to the pair after the call, which is the
behaviour the merge-correctness claim is about. -/

/-- The inner loop of `_merge_qtable` for one on-disk state entry:
`for action_key, q_value in actions.items(): self._local_qtable[state_key][action_key] = max(current_value, q_value)`. -/
def mergeActs (s : String) (mem : QT) (acts : List (String × ℚ)) : QT :=
  acts.foldl (fun m p => qtSet m s p.1 (max (qtGet0 m s p.1) p.2)) mem

/-- One iteration of `_merge_qtable`'s outer loop: ensure the state key
exists, then max-merge each of its on-disk action values. -/
def mergeState (mem : QT) (s : String) (acts : List (String × ℚ)) : QT :=
  mergeActs s (if alLookup mem s = none then alInsert mem s [] else mem) acts

/-- `QTable._merge_qtable(self, other_qtable)`: fold the on-disk table
`disk` into the in-memory table `mem`, taking per-pair maxima. -/
def mergeQtable (mem disk : QT) : QT :=
  disk.foldl (fun m p => mergeState m p.1 p.2) mem

/-- Well-formedness of a table image as produced by a Python `dict`:
no duplicate state keys, and no duplicate action keys within a state. -/
def QTWF (qt : QT) : Prop :=
  (qt.map Prod.fst).Nodup ∧ ∀ p ∈ qt, (p.2.map Prod.fst).Nodup

instance : DecidablePred QTWF := fun qt => by
  unfold QTWF
  infer_instance

theorem mergeActs_get_other (s : String) (mem : QT) (acts : List (String × ℚ))
    (s' a' : String) (hs : s' ≠ s) :
    qtGet (mergeActs s mem acts) s' a' = qtGet mem s' a' := by
  induction acts generalizing mem with
  | nil => rfl
  | cons p rest ih =>
    show qtGet (mergeActs s (qtSet mem s p.1 _) rest) s' a' = _
    rw [ih, qtGet_qtSet, if_neg (fun hh => hs hh.1)]

theorem mergeActs_get_notmem (s : String) (mem : QT) (acts : List (String × ℚ))
    (a' : String) (ha : a' ∉ acts.map Prod.fst) :
    qtGet (mergeActs s mem acts) s a' = qtGet mem s a' := by
  induction acts generalizing mem with
  | nil => rfl
  | cons p rest ih =>
    rw [List.map_cons, List.mem_cons] at ha
    push_neg at ha
    show qtGet (mergeActs s (qtSet mem s p.1 _) rest) s a' = _
    rw [ih _ ha.2, qtGet_qtSet, if_neg (fun hh => ha.1 hh.2)]

theorem mergeActs_get_mem (s : String) (mem : QT) (acts : List (String × ℚ))
    (a' : String) (q : ℚ) (hnd : (acts.map Prod.fst).Nodup)
    (ha : alLookup acts a' = some q) :
    qtGet (mergeActs s mem acts) s a' = some (max (qtGet0 mem s a') q) := by
  induction acts generalizing mem with
  | nil => simp [alLookup] at ha
  | cons p rest ih =>
    rw [List.map_cons, List.nodup_cons] at hnd
    by_cases hp : p.1 = a'
    · rw [alLookup_cons, if_pos hp] at ha
      injection ha with hq
      show qtGet (mergeActs s (qtSet mem s p.1 _) rest) s a' = _
      rw [mergeActs_get_notmem _ _ _ _ (hp ▸ hnd.1), qtGet_qtSet,
        if_pos ⟨rfl, hp.symm⟩, hp, hq]
    · rw [alLookup_cons, if_neg hp] at ha
      show qtGet (mergeActs s (qtSet mem s p.1 _) rest) s a' = _
      rw [ih _ hnd.2 ha, qtGet0_qtSet_ne _ _ _ _ _ _ (fun hh => hp hh.2.symm)]

/-- The "ensure the state key exists" step of `_merge_qtable` never changes
any two-level lookup: it only ever adds an empty inner dict. -/
theorem ensure_get (mem : QT) (s₀ s a : String) :
    qtGet (if alLookup mem s₀ = none then alInsert mem s₀ [] else mem) s a =
      qtGet mem s a := by
  by_cases h : alLookup mem s₀ = none
  · rw [if_pos h]
    unfold qtGet
    rw [alLookup_alInsert]
    by_cases hs : s = s₀
    · rw [if_pos hs, hs, h]
      rfl
    · rw [if_neg hs]
  · rw [if_neg h]

theorem mergeState_get_other (mem : QT) (s : String) (acts : List (String × ℚ))
    (s' a' : String) (hs : s' ≠ s) :
    qtGet (mergeState mem s acts) s' a' = qtGet mem s' a' := by
  unfold mergeState
  rw [mergeActs_get_other _ _ _ _ _ hs, ensure_get]

theorem mergeState_get_self (mem : QT) (s : String) (acts : List (String × ℚ))
    (a' : String) (hnd : (acts.map Prod.fst).Nodup) :
    qtGet (mergeState mem s acts) s a' =
      match alLookup acts a' with
      | some q => some (max (qtGet0 mem s a') q)
      | none => qtGet mem s a' := by
  unfold mergeState
  cases ha : alLookup acts a' with
  | none =>
    have hm : a' ∉ acts.map Prod.fst := by
      intro hmem
      have := alLookup_isSome_of_mem acts a' hmem
      rw [ha] at this
      simp at this
    rw [mergeActs_get_notmem _ _ _ _ hm, ensure_get]
  | some q =>
    rw [mergeActs_get_mem _ _ _ _ _ hnd ha]
    unfold qtGet0
    rw [ensure_get]

/-- Per-pair description of `_merge_qtable`: a pair present on disk is merged
by `max` against the in-memory value (missing in-memory values defaulting to
0); every other pair keeps its in-memory status and value unchanged. -/
theorem mergeQtable_get (mem disk : QT) (hwf : QTWF disk) (s a : String) :
    qtGet (mergeQtable mem disk) s a =
      match qtGet disk s a with
      | some q => some (max (qtGet0 mem s a) q)
      | none => qtGet mem s a := by
  induction disk generalizing mem with
  | nil => rfl
  | cons p rest ih =>
    obtain ⟨hnd, hinner⟩ := hwf
    rw [List.map_cons, List.nodup_cons] at hnd
    have hwfr : QTWF rest := ⟨hnd.2, fun q hq => hinner q (List.mem_cons_of_mem _ hq)⟩
    have hnd₀ : (p.2.map Prod.fst).Nodup := hinner p (List.mem_cons_self _ _)
    show qtGet (mergeQtable (mergeState mem p.1 p.2) rest) s a = _
    by_cases hs : s = p.1
    · have hrest : alLookup rest s = none := by
        rw [hs]
        exact alLookup_eq_none_of_not_mem _ _ hnd.1
      have hdisk : qtGet (p :: rest) s a = alLookup p.2 a := by
        unfold qtGet
        rw [alLookup_cons, if_pos hs.symm, Option.some_bind]
      rw [ih _ hwfr]
      have hrest2 : qtGet rest s a = none := by
        unfold qtGet
        rw [hrest]
        rfl
      rw [hrest2, hdisk, hs, mergeState_get_self _ _ _ _ hnd₀]
    · have hdisk : qtGet (p :: rest) s a = qtGet rest s a := by
        unfold qtGet
        rw [alLookup_cons, if_neg (fun hh => hs hh.symm)]
      rw [ih _ hwfr, hdisk]
      have hmem : qtGet (mergeState mem p.1 p.2) s a = qtGet mem s a :=
        mergeState_get_other _ _ _ _ _ hs
      have hmem0 : qtGet0 (mergeState mem p.1 p.2) s a = qtGet0 mem s a := by
        unfold qtGet0
        rw [hmem]
      cases qtGet rest s a with
      | none => exact hmem
      | some q =>
        show some (max (qtGet0 (mergeState mem p.1 p.2) s a) q) = _
        rw [hmem0]

/-- File operations a `save()` call performs on the table file. -/
inductive FileEff
  | read
  | write
  deriving DecidableEq, Repr

/-- The outcome of `QTable.save()`: the table file afterwards, the in-memory
table afterwards, the dirty flag afterwards, and the file operations made. -/
structure SaveOut where
  disk : Option QT
  mem : QT
  dirty : Bool
  effects : List FileEff
  deriving DecidableEq, Repr

/-- `QTable.save()` (src/lib/qtable.py lines 101–121): an early return when
the in-memory table is empty and the dirty flag is clear; otherwise
`_load_and_merge()` (which reads and max-merges the file only if it exists)
followed by writing the merged table and clearing the dirty flag. -/
def qtSave (disk : Option QT) (mem : QT) (dirty : Bool) : SaveOut :=
  if mem.length = 0 ∧ dirty = false then
    ⟨disk, mem, dirty, []⟩
  else
    match disk with
    | none => ⟨some mem, mem, false, [FileEff.write]⟩
    | some d =>
      let merged := mergeQtable mem d
      ⟨some merged, merged, false, [FileEff.read, FileEff.write]⟩

/-- `QTable.ensure_state_exists(state_key, action_keys)`
(src/lib/qtable.py lines 150–161): create the state's inner dict if missing,
then give every listed action key a `0.0` entry if it has none. -/
def ensureStateExists (qt : QT) (sk : String) (aks : List String) : QT :=
  aks.foldl (fun m ak => if qtGet m sk ak = none then qtSet m sk ak 0 else m)
    (if alLookup qt sk = none then alInsert qt sk [] else qt)

/-! ### Exploration-rate decay (src/lib/constants.py lines 95–96;
applied at src/lib/bot_connection.py line 309 / src/main.py line 599) -/

/-- `EPSILON_MIN = 0.02`. -/
def EPSILON_MIN : ℚ := 2 / 100

/-- `EPSILON_DECAY = 0.9995`. -/
def EPSILON_DECAY : ℚ := 9995 / 10000

/-- One decay step: `agent.epsilon = max(EPSILON_MIN, agent.epsilon * EPSILON_DECAY)`. -/
def decayEpsilon (e : ℚ) : ℚ := max EPSILON_MIN (e * EPSILON_DECAY)

/-- `n` successive decay steps applied to a starting exploration rate. -/
def decayIter : Nat → ℚ → ℚ
  | 0, e => e
  | n + 1, e => decayIter n (decayEpsilon e)

/-- All stored values of a table are nonnegative. -/
def qtNonneg (qt : QT) : Prop := ∀ p ∈ qt, ∀ e ∈ p.2, 0 ≤ e.2

instance : DecidablePred qtNonneg := fun qt => by
  unfold qtNonneg
  infer_instance

theorem qtGet0_nonneg (qt : QT) (h : qtNonneg qt) (s a : String) :
    0 ≤ qtGet0 qt s a := by
  unfold qtGet0
  cases hv : qtGet qt s a with
  | none => simp
  | some v =>
    unfold qtGet at hv
    cases hs : alLookup qt s with
    | none => rw [hs] at hv; simp at hv
    | some inner =>
      rw [hs, Option.some_bind] at hv
      have hi : inner ∈ qt.map Prod.snd := alLookup_mem_values _ _ _ hs
      have he : v ∈ inner.map Prod.snd := alLookup_mem_values _ _ _ hv
      obtain ⟨p, hp, hps⟩ := List.mem_map.mp hi
      obtain ⟨e, hee, hes⟩ := List.mem_map.mp he
      simpa [hes] using h p hp e (hps ▸ hee)

/-! ## Claim theorems on the Q-table layer -/

/-- C1 (amended). On `save()`, a (state, action) pair present in the on-disk
table `A` ends up in the file as the maximum of the disk value and the
in-memory value of `B` (a missing in-memory value defaulting to 0), hence
never below either table's stored-or-default value; a pair *not* present on
disk keeps B's status and value unchanged — so when every stored value of
both tables is nonnegative, the file's default-0 value of every pair is
exactly the maximum of the two tables' default-0 values. (The original
claim's unconditional max/never-less property fails for negative values of
pairs present in only one table; see the counterexample.) -/
theorem c1_save_max_merge (A B : QT) (db : Bool) (hwf : QTWF A)
    (hrun : B ≠ [] ∨ db = true) :
    (qtSave (some A) B db).disk = some (mergeQtable B A) ∧
    (∀ s a q, qtGet A s a = some q →
      qtGet (mergeQtable B A) s a = some (max (qtGet0 B s a) q) ∧
      qtGet0 A s a ≤ qtGet0 (mergeQtable B A) s a ∧
      qtGet0 B s a ≤ qtGet0 (mergeQtable B A) s a) ∧
    (∀ s a, qtGet A s a = none →
      qtGet (mergeQtable B A) s a = qtGet B s a) ∧
    (qtNonneg A → qtNonneg B → ∀ s a,
      qtGet0 (mergeQtable B A) s a = max (qtGet0 A s a) (qtGet0 B s a)) := by
  have hguard : ¬(B.length = 0 ∧ db = false) := by
    rcases hrun with h | h
    · exact fun hc => h (List.length_eq_zero.mp hc.1)
    · intro hc
      rw [h] at hc
      exact absurd hc.2 (by decide)
  refine ⟨?_, ?_, ?_, ?_⟩
  · unfold qtSave
    rw [if_neg hguard]
  · intro s a q hq
    have hm := mergeQtable_get B A hwf s a
    rw [hq] at hm
    refine ⟨hm, ?_, ?_⟩
    · unfold qtGet0
      rw [hm, hq]
      exact le_max_right _ _
    · unfold qtGet0
      rw [hm]
      exact le_max_left _ _
  · intro s a hq
    have hm := mergeQtable_get B A hwf s a
    rw [hq] at hm
    exact hm
  · intro hA hB s a
    have hm := mergeQtable_get B A hwf s a
    cases hq : qtGet A s a with
    | some q =>
      rw [hq] at hm
      have l1 : qtGet0 (mergeQtable B A) s a = max (qtGet0 B s a) q := by
        unfold qtGet0
        rw [hm]
        rfl
      have l2 : qtGet0 A s a = q := by
        unfold qtGet0
        rw [hq]
        rfl
      rw [l1, l2, max_comm]
    | none =>
      rw [hq] at hm
      have h0A : qtGet0 A s a = 0 := by
        unfold qtGet0
        rw [hq]
        rfl
      have h0 : qtGet0 (mergeQtable B A) s a = qtGet0 B s a := by
        unfold qtGet0
        rw [hm]
      rw [h0, h0A, max_eq_right (qtGet0_nonneg B hB s a)]

/-- C1 witness: the amended theorem applied to the concrete tables
`A = {"s": {"a": 3}}` on disk and `B = {"s": {"a": 5, "b": 2}}` in memory. -/
theorem c1_save_max_merge_witness :
    QTWF [("s", [("a", (3 : ℚ))])] ∧
    (([("s", [("a", (5 : ℚ)), ("b", 2)])] : QT) ≠ [] ∨ false = true) ∧
    (qtSave (some [("s", [("a", (3 : ℚ))])])
        [("s", [("a", (5 : ℚ)), ("b", 2)])] false).disk =
      some (mergeQtable [("s", [("a", (5 : ℚ)), ("b", 2)])]
        [("s", [("a", (3 : ℚ))])]) :=
  ⟨by decide, Or.inl (by decide),
    (c1_save_max_merge [("s", [("a", 3)])] [("s", [("a", 5), ("b", 2)])]
      false (by decide) (Or.inl (by decide))).1⟩

/-- C1 counterexample. Disk table `A = {"s": {"a": -5}}`, in-memory table
`B = {"t": {"b": -7}}`. After `save()` the file holds
`{"t": {"b": -7}, "s": {"a": 0}}`: the pair `("t","b")` (present only in
memory, value −7) is written as −7, which is *less* than A's default value 0
and not the maximum of the two tables' values for that pair; and the pair
`("s","a")` (present only on disk with the negative value −5) is written as
0, which differs from the only stored value −5 the two tables have for it.
So the claimed unconditional per-pair max/never-less property is false. -/
theorem c1_counterexample :
    (qtSave (some [("s", [("a", (-5 : ℚ))])]) [("t", [("b", (-7 : ℚ))])]
        false).disk =
      some [("t", [("b", (-7 : ℚ))]), ("s", [("a", (0 : ℚ))])] ∧
    qtGet0 [("t", [("b", (-7 : ℚ))]), ("s", [("a", (0 : ℚ))])] "t" "b" = -7 ∧
    qtGet0 [("s", [("a", (-5 : ℚ))])] "t" "b" = 0 ∧
    ¬(qtGet0 [("t", [("b", (-7 : ℚ))]), ("s", [("a", (0 : ℚ))])] "t" "b" =
        max (qtGet0 [("s", [("a", (-5 : ℚ))])] "t" "b")
          (qtGet0 [("t", [("b", (-7 : ℚ))])] "t" "b")) ∧
    qtGet0 [("t", [("b", (-7 : ℚ))]), ("s", [("a", (0 : ℚ))])] "t" "b" <
      qtGet0 [("s", [("a", (-5 : ℚ))])] "t" "b" ∧
    qtGet [("s", [("a", (-5 : ℚ))])] "s" "a" = some (-5) ∧
    qtGet [("t", [("b", (-7 : ℚ))]), ("s", [("a", (0 : ℚ))])] "s" "a" =
      some 0 := by
  refine ⟨?_, by decide, by decide, by decide, by decide, by decide, by decide⟩
  decide

/-- Helper: the seeding fold of `ensure_state_exists` never removes a pair. -/
theorem ensure_fold_preserves (sk : String) (aks : List String) (m : QT)
    (a : String) (h : (qtGet m sk a).isSome) :
    (qtGet (aks.foldl
      (fun m ak => if qtGet m sk ak = none then qtSet m sk ak 0 else m) m)
      sk a).isSome := by
  induction aks generalizing m with
  | nil => exact h
  | cons a₀ rest ih =>
    rw [List.foldl_cons]
    apply ih
    by_cases h₀ : qtGet m sk a₀ = none
    · rw [if_pos h₀, qtGet_qtSet]
      by_cases he : a = a₀
      · rw [if_pos ⟨rfl, he⟩]
        rfl
      · rw [if_neg (fun hh => he hh.2)]
        exact h
    · rw [if_neg h₀]
      exact h

theorem ensure_fold_mem (sk : String) (aks : List String) (m : QT)
    (a : String) (ha : a ∈ aks) :
    (qtGet (aks.foldl
      (fun m ak => if qtGet m sk ak = none then qtSet m sk ak 0 else m) m)
      sk a).isSome := by
  induction aks generalizing m with
  | nil => simp at ha
  | cons a₀ rest ih =>
    rw [List.foldl_cons]
    rcases List.mem_cons.mp ha with h | h
    · subst h
      apply ensure_fold_preserves
      by_cases h₀ : qtGet m sk a = none
      · rw [if_pos h₀, qtGet_qtSet, if_pos ⟨rfl, rfl⟩]
        rfl
      · rw [if_neg h₀]
        exact Option.ne_none_iff_isSome.mp h₀
    · exact ih _ h

theorem ensure_fold_id (sk : String) (aks : List String) (m : QT)
    (h : ∀ ak ∈ aks, (qtGet m sk ak).isSome) :
    aks.foldl
      (fun m ak => if qtGet m sk ak = none then qtSet m sk ak 0 else m) m
      = m := by
  induction aks with
  | nil => rfl
  | cons a₀ rest ih =>
    rw [List.foldl_cons,
      if_neg (Option.ne_none_iff_isSome.mpr (h a₀ (List.mem_cons_self _ _))),
      ih (fun ak hm => h ak (List.mem_cons_of_mem _ hm))]

theorem ensure_lookup_isSome (qt : QT) (sk : String) (aks : List String) :
    (alLookup (ensureStateExists qt sk aks) sk).isSome := by
  unfold ensureStateExists
  have h1 : (alLookup (if alLookup qt sk = none then alInsert qt sk [] else qt)
      sk).isSome := by
    by_cases h : alLookup qt sk = none
    · rw [if_pos h, alLookup_alInsert, if_pos rfl]
      rfl
    · rw [if_neg h]
      exact Option.ne_none_iff_isSome.mp h
  generalize (if alLookup qt sk = none then alInsert qt sk [] else qt) = m at h1 ⊢
  induction aks generalizing m with
  | nil => exact h1
  | cons a₀ rest ih =>
    rw [List.foldl_cons]
    apply ih
    by_cases h₀ : qtGet m sk a₀ = none
    · rw [if_pos h₀]
      unfold qtSet
      rw [alLookup_alInsert, if_pos rfl]
      rfl
    · rw [if_neg h₀]
      exact h1

/-- C7: calling `ensure_state_exists` twice in succession with the same
state key and action-key list leaves the Q-table exactly as after the first
call: the second call finds the state present and every listed action key
already seeded, so it changes nothing. -/
theorem c7_ensure_idempotent (qt : QT) (sk : String) (aks : List String) :
    ensureStateExists (ensureStateExists qt sk aks) sk aks =
      ensureStateExists qt sk aks := by
  have hsk := ensure_lookup_isSome qt sk aks
  have haks : ∀ ak ∈ aks, (qtGet (ensureStateExists qt sk aks) sk ak).isSome :=
    fun ak hm => ensure_fold_mem sk aks _ ak hm
  show aks.foldl
      (fun m ak => if qtGet m sk ak = none then qtSet m sk ak 0 else m)
      (if alLookup (ensureStateExists qt sk aks) sk = none
        then alInsert (ensureStateExists qt sk aks) sk []
        else ensureStateExists qt sk aks) = ensureStateExists qt sk aks
  rw [if_neg (Option.ne_none_iff_isSome.mpr hsk)]
  exact ensure_fold_id sk aks _ haks

theorem decayIter_min (n : Nat) (e : ℚ) (h : EPSILON_MIN ≤ e) :
    EPSILON_MIN ≤ decayIter n e := by
  induction n generalizing e with
  | zero => exact h
  | succ m ih => exact ih _ (le_max_left _ _)

/-- C8: after any number `n ≥ 1` of decay steps
`epsilon = max(EPSILON_MIN, epsilon * EPSILON_DECAY)`, the exploration rate
is at least `EPSILON_MIN = 0.02`, whatever the starting value. -/
theorem c8_epsilon_floor (e : ℚ) (n : Nat) (h : 1 ≤ n) :
    EPSILON_MIN ≤ decayIter n e := by
  obtain ⟨m, rfl⟩ : ∃ m, n = m + 1 := ⟨n - 1, by omega⟩
  exact decayIter_min m (decayEpsilon e) (le_max_left _ _)

/-- C8 witness: two decay steps from a starting epsilon of 1 stay at or
above the floor. -/
theorem c8_epsilon_floor_witness :
    1 ≤ 2 ∧ EPSILON_MIN ≤ decayIter 2 1 :=
  ⟨by norm_num, c8_epsilon_floor 1 2 (by norm_num)⟩

/-- C10: `save()` on an empty, clean table returns before touching the file:
the on-disk image, the in-memory table, the dirty flag are unchanged and no
file operation (read or write) happens. -/
theorem c10_save_noop (disk : Option QT) (mem : QT) (dirty : Bool)
    (h1 : mem = []) (h2 : dirty = false) :
    qtSave disk mem dirty = ⟨disk, mem, dirty, []⟩ := by
  subst h1
  subst h2
  rfl

/-- C10 witness: `save()` with an empty clean table over an existing file
image leaves that file image intact and performs no file operation. -/
theorem c10_save_noop_witness :
    ([] : QT) = [] ∧ false = false ∧
    qtSave (some [("x", [("y", (3 : ℚ))])]) [] false =
      ⟨some [("x", [("y", (3 : ℚ))])], [], false, []⟩ :=
  ⟨rfl, rfl, c10_save_noop (some [("x", [("y", 3)])]) [] false rfl rfl⟩

/-! ## Snapshots and actions (src/main.py / src/bot.py)

Only the snapshot fields read by `get_possible_actions` are modelled:
`inSpawnPhase` and the two candidate lists under `candidates`
(`emptyNeighbors`, `enemyNeighbors`). The Python `or []` defaults for
missing fields are absorbed into the plain list fields. -/

/-- A board cell as it appears in the candidate lists. -/
structure Cell where
  x : Int
  y : Int
  deriving DecidableEq, Repr

/-- The snapshot fields used by action enumeration. -/
structure Snapshot where
  inSpawnPhase : Bool
  emptyNeighbors : List Cell
  enemyNeighbors : List Cell
  deriving DecidableEq, Repr

/-- The action dictionaries the agent builds: `{"type": "spawn", x, y}`,
`{"type": "attack", x, y, "ratio": r}` (the third field `r` is the troop
ratio) and the wait action `{"type": "none"}`. -/
inductive PAction
  | spawn (x y : Int)
  | attack (x y : Int) (r : ℚ)
  | wait
  deriving DecidableEq, Repr

/-- `PRUNE_MAX_TARGETS = 50` (src/main.py line 26, src/bot.py line 16). -/
def PRUNE_MAX_TARGETS : Nat := 50

/-- `ATTACK_RATIOS = [0.20, 0.40, 0.60, 0.80]` (src/main.py line 27,
src/bot.py line 17). -/
def ATTACK_RATIOS : List ℚ := [20 / 100, 40 / 100, 60 / 100, 80 / 100]

/-- `Environment.get_possible_actions` (src/main.py lines 190–219), which is
line for line the module-level `get_possible_actions` of src/bot.py lines
202–230: during the spawn phase, spawn actions for the first
`PRUNE_MAX_TARGETS` empty neighbors (or a lone wait action when there are
none); outside it, a wait action followed by one attack action per
(candidate, ratio) pair over the first `PRUNE_MAX_TARGETS` candidates of
the concatenation enemy-neighbors-then-empty-neighbors. -/
def getPossibleActions (s : Snapshot) : List PAction :=
  let empty := s.emptyNeighbors
  let enemy := s.enemyNeighbors
  if s.inSpawnPhase then
    if empty ≠ [] then
      (empty.take PRUNE_MAX_TARGETS).map (fun c => PAction.spawn c.x c.y)
    else [PAction.wait]
  else
    if enemy ++ empty = [] then [PAction.wait]
    else
      PAction.wait ::
        ((enemy ++ empty).take PRUNE_MAX_TARGETS).flatMap
          (fun c => ATTACK_RATIOS.map (fun r => PAction.attack c.x c.y r))

/-- Recogniser for attack actions. -/
def isAttack : PAction → Bool
  | PAction.attack _ _ _ => true
  | _ => false

theorem length_flatMap_ratios (l : List Cell) (f : Cell → ℚ → PAction) :
    (l.flatMap (fun c => ATTACK_RATIOS.map (f c))).length =
      ATTACK_RATIOS.length * l.length := by
  induction l with
  | nil => rfl
  | cons c rest ih =>
    rw [List.flatMap_cons, List.length_append, List.length_map, ih,
      List.length_cons]
    ring

/-- C5 (amended). Outside the spawn phase, enumeration returns attack
actions for at most the first `PRUNE_MAX_TARGETS = 50` candidate cells of
the list enemy-neighbors ++ empty-neighbors — so enemy-owned targets are
kept in preference to unclaimed ones when truncating — and therefore at
most `PRUNE_MAX_TARGETS * |ATTACK_RATIOS| = 200` attack actions in total
(not at most 50, as the original claim says: each kept target contributes
one attack action per ratio; see the counterexample). -/
theorem c5_bounded_fanout (s : Snapshot) (h : s.inSpawnPhase = false) :
    (getPossibleActions s).countP isAttack ≤
      PRUNE_MAX_TARGETS * ATTACK_RATIOS.length ∧
    (∀ x y r, PAction.attack x y r ∈ getPossibleActions s ↔
      r ∈ ATTACK_RATIOS ∧ ∃ c ∈ (s.enemyNeighbors ++ s.emptyNeighbors).take
        PRUNE_MAX_TARGETS, c.x = x ∧ c.y = y) := by
  unfold getPossibleActions
  rw [if_neg (by rw [h]; decide)]
  by_cases ht : s.enemyNeighbors ++ s.emptyNeighbors = []
  · rw [if_pos ht]
    constructor
    · decide
    · intro x y r
      rw [ht]
      constructor
      · intro hmem
        have h' := List.mem_singleton.mp hmem
        cases h'
      · rintro ⟨-, c, hc, -⟩
        simp at hc
  · rw [if_neg ht]
    constructor
    · rw [List.countP_cons]
      have hw : (if isAttack PAction.wait = true then 1 else 0) = 0 := rfl
      rw [hw, Nat.add_zero]
      refine le_trans (List.countP_le_length _) ?_
      rw [length_flatMap_ratios]
      refine le_trans (Nat.mul_le_mul_left _ ?_) (le_of_eq (Nat.mul_comm _ _))
      exact List.length_take_le PRUNE_MAX_TARGETS _
    · intro x y r
      constructor
      · intro hmem
        rcases List.mem_cons.mp hmem with h' | h'
        · cases h'
        · obtain ⟨c, hc, hr⟩ := List.mem_flatMap.mp h'
          obtain ⟨r', hr', heq⟩ := List.mem_map.mp hr
          injection heq with hx hy hrr
          exact ⟨hrr ▸ hr', c, hc, hx, hy⟩
      · rintro ⟨hr, c, hc, hx, hy⟩
        apply List.mem_cons_of_mem
        apply List.mem_flatMap.mpr
        exact ⟨c, hc, List.mem_map.mpr ⟨r, hr, by rw [hx, hy]⟩⟩

/-- C5 witness: the amended bound applied to a non-spawn snapshot with two
enemy candidates and one empty candidate. -/
theorem c5_bounded_fanout_witness :
    (Snapshot.mk false [Cell.mk 5 5] [Cell.mk 1 1, Cell.mk 2 2]).inSpawnPhase
        = false ∧
    (getPossibleActions
        (Snapshot.mk false [Cell.mk 5 5] [Cell.mk 1 1, Cell.mk 2 2])).countP
        isAttack ≤ PRUNE_MAX_TARGETS * ATTACK_RATIOS.length :=
  ⟨rfl, (c5_bounded_fanout _ rfl).1⟩

/-- C5 counterexample. On a non-spawn snapshot with 200 enemy-adjacent
candidates, `get_possible_actions` returns `4 × 50 = 200` attack actions
(one per kept target and ratio), not at most the configured cap
`PRUNE_MAX_TARGETS = 50` of attack actions as the claim states. -/
theorem c5_counterexample :
    (getPossibleActions
        (Snapshot.mk false []
          ((List.range 200).map (fun i => Cell.mk (Int.ofNat i) 0)))).countP
        isAttack = 200 ∧
    ¬((getPossibleActions
        (Snapshot.mk false []
          ((List.range 200).map (fun i => Cell.mk (Int.ofNat i) 0)))).countP
        isAttack ≤ PRUNE_MAX_TARGETS) := by
  constructor
  · decide
  · decide

/-- C6 (amended). Action enumeration includes the wait action (`"none"`)
whenever the snapshot is outside the spawn phase, and also during the spawn
phase when no empty neighbor exists (the result is then exactly the lone
wait action); spawn actions occur only during the spawn phase with at least
one empty neighbor — but in exactly that case the result consists of spawn
actions only and does *not* include wait, contrary to the original claim's
"always includes Wait" (see the counterexample). -/
theorem c6_wait_and_spawn (s : Snapshot) :
    (s.inSpawnPhase = false ∨ s.emptyNeighbors = [] →
      PAction.wait ∈ getPossibleActions s) ∧
    (∀ x y, PAction.spawn x y ∈ getPossibleActions s →
      s.inSpawnPhase = true ∧ s.emptyNeighbors ≠ []) ∧
    (s.inSpawnPhase = true → s.emptyNeighbors ≠ [] →
      PAction.wait ∉ getPossibleActions s ∧
      ∀ a ∈ getPossibleActions s, ∃ x y, a = PAction.spawn x y) := by
  refine ⟨?_, ?_, ?_⟩
  · intro hc
    unfold getPossibleActions
    by_cases hs : s.inSpawnPhase
    · have he : s.emptyNeighbors = [] := by
        rcases hc with h | h
        · rw [h] at hs
          exact absurd hs (by decide)
        · exact h
      rw [if_pos hs, if_neg (fun hne => hne he)]
      exact List.mem_singleton.mpr rfl
    · rw [if_neg hs]
      by_cases ht : s.enemyNeighbors ++ s.emptyNeighbors = []
      · rw [if_pos ht]
        exact List.mem_singleton.mpr rfl
      · rw [if_neg ht]
        exact List.mem_cons_self _ _
  · intro x y hmem
    unfold getPossibleActions at hmem
    by_cases hs : s.inSpawnPhase
    · by_cases he : s.emptyNeighbors = []
      · rw [if_pos hs, if_neg (fun hne => hne he)] at hmem
        have h' := List.mem_singleton.mp hmem
        cases h'
      · exact ⟨hs, he⟩
    · rw [if_neg hs] at hmem
      by_cases ht : s.enemyNeighbors ++ s.emptyNeighbors = []
      · rw [if_pos ht] at hmem
        have h' := List.mem_singleton.mp hmem
        cases h'
      · rw [if_neg ht] at hmem
        rcases List.mem_cons.mp hmem with h' | h'
        · cases h'
        · obtain ⟨c, -, hr⟩ := List.mem_flatMap.mp h'
          obtain ⟨r', -, heq⟩ := List.mem_map.mp hr
          cases heq
  · intro hs he
    unfold getPossibleActions
    rw [if_pos hs, if_pos he]
    constructor
    · intro hmem
      obtain ⟨c, -, heq⟩ := List.mem_map.mp hmem
      cases heq
    · intro a hmem
      obtain ⟨c, -, heq⟩ := List.mem_map.mp hmem
      exact ⟨c.x, c.y, heq.symm⟩

/-- C6 witness: the amended theorem applied to concrete snapshots — a
non-spawn snapshot includes wait, and a spawn-phase snapshot with an empty
neighbor admits the spawn action it returns. -/
theorem c6_wait_and_spawn_witness :
    PAction.wait ∈ getPossibleActions (Snapshot.mk false [] []) ∧
    ((Snapshot.mk true [Cell.mk 3 4] []).inSpawnPhase = true ∧
      (Snapshot.mk true [Cell.mk 3 4] []).emptyNeighbors ≠ []) :=
  ⟨(c6_wait_and_spawn (Snapshot.mk false [] [])).1 (Or.inl rfl),
    (c6_wait_and_spawn (Snapshot.mk true [Cell.mk 3 4] [])).2.1 3 4
      (by decide)⟩

/-- C6 counterexample. A spawn-phase snapshot with one empty neighbor:
enumeration returns only the spawn action and does not include the wait
action, refuting "the returned sequence always includes the Wait action". -/
theorem c6_counterexample :
    getPossibleActions (Snapshot.mk true [Cell.mk 0 0] []) =
      [PAction.spawn 0 0] ∧
    PAction.wait ∉ getPossibleActions (Snapshot.mk true [Cell.mk 0 0] []) := by
  constructor
  · decide
  · decide

/-! ## Tick processing (`BotConnection.process_state_tick`,
src/lib/bot_connection.py lines 321–341 and src/main.py lines 534–610)

The model keeps the state touched by the tick-acceptance logic: the
`last_tick` deduplication field, the `last_in_spawn` flag, and the
environment's current/previous snapshot (`env.update_state`). The
downstream effects of an accepted frame — intent sending, the learning
update, action selection, autosave — are outside this state and are not
needed for the tick-monotonicity claim. -/

/-- An inbound `state` frame: its `tick` field (`none` models a missing or
non-integer tick) plus the `inSpawnPhase` flag and an opaque payload
standing for the rest of the snapshot. -/
structure Frame where
  tick : Option Int
  inSpawnPhase : Bool
  payload : String
  deriving DecidableEq, Repr

/-- The connection state read and written by `process_state_tick`. -/
structure ConnState where
  lastTick : Option Int
  lastInSpawn : Bool
  currentState : Option Frame
  previousState : Option Frame
  deriving DecidableEq, Repr

/-- `process_state_tick` (src/lib/bot_connection.py lines 321–341): drop the
frame if its tick is not an integer or equals `last_tick`; otherwise record
the tick, take the auto-spawn early return on the edge into the spawn phase
(which skips the environment update), else push the frame into the
environment (`previous := current; current := frame`). -/
def processStateTick (st : ConnState) (f : Frame) : ConnState :=
  match f.tick with
  | Option.none => st
  | some t =>
    if st.lastTick = some t then st
    else
      let st1 : ConnState := { st with lastTick := some t }
      if f.inSpawnPhase = true ∧ st.lastInSpawn = false then
        { st1 with lastInSpawn := true }
      else
        { st1 with
          previousState := st.currentState
          currentState := some f }

/-- C3 (amended). A frame whose tick is missing/non-integer, or equal to the
last processed tick, is discarded and leaves the connection state (current
snapshot, previous snapshot, spawn flag, learning bookkeeping) completely
unchanged. Ticks are however *not* required to be increasing: only equality
with the immediately preceding processed tick is checked, so a frame with a
lower tick is accepted (see the counterexample). -/
theorem c3_tick_dedup (st : ConnState) (f : Frame) :
    (f.tick = none → processStateTick st f = st) ∧
    (∀ t : Int, f.tick = some t → st.lastTick = some t →
      processStateTick st f = st) := by
  constructor
  · intro h
    unfold processStateTick
    rw [h]
  · intro t h1 h2
    unfold processStateTick
    rw [h1]
    show (if st.lastTick = some t then st else _) = st
    rw [if_pos h2]

/-- C3 witness: the deduplication theorem applied to a concrete state that
has already processed tick 5 and receives tick 5 again. -/
theorem c3_tick_dedup_witness :
    (Frame.mk (some 5) false "dup").tick = some 5 ∧
    (ConnState.mk (some 5) false (some (Frame.mk (some 5) false "first"))
        none).lastTick = some 5 ∧
    processStateTick
        (ConnState.mk (some 5) false (some (Frame.mk (some 5) false "first"))
          none)
        (Frame.mk (some 5) false "dup") =
      ConnState.mk (some 5) false (some (Frame.mk (some 5) false "first"))
        none :=
  ⟨rfl, rfl,
    (c3_tick_dedup
      (ConnState.mk (some 5) false (some (Frame.mk (some 5) false "first"))
        none)
      (Frame.mk (some 5) false "dup")).2 5 rfl rfl⟩

/-- C3 counterexample. Starting fresh, process a frame with tick 5 and then
a frame with tick 3: the stale tick-3 frame is *not* ignored — it is
accepted, becomes the current snapshot, and `last_tick` moves backwards to
3 — so the sequence of accepted ticks is not strictly increasing. -/
theorem c3_counterexample :
    processStateTick
        (processStateTick (ConnState.mk none false none none)
          (Frame.mk (some 5) false "a"))
        (Frame.mk (some 3) false "b") =
      ConnState.mk (some 3) false (some (Frame.mk (some 3) false "b"))
        (some (Frame.mk (some 5) false "a")) ∧
    processStateTick
        (processStateTick (ConnState.mk none false none none)
          (Frame.mk (some 5) false "a"))
        (Frame.mk (some 3) false "b") ≠
      processStateTick (ConnState.mk none false none none)
        (Frame.mk (some 5) false "a") := by
  constructor
  · decide
  · decide

/-! ## Key feature vectors (`_key_to_vector`, src/lib/utils.py lines 42–98)

The Python function splits the key on `"|"`, splits each part once on
`":"` into a field dict, and extracts nine numeric features using
`float(re.sub(r"[^0-9.-]", "", s) or 0)` for three fields (whose
`ValueError` makes the whole function return `None`) and "first decimal
literal found by `re.findall(r"[-+]?[0-9]*\.?[0-9]+", s)`, else 0" for the
rest. Both separators are single characters, so the splitting is modelled
directly on `List Char`; floats are exact rationals. -/

/-- Value of a digit run (most significant first), as in `float("123")`. -/
def digitsVal (ds : List Char) : ℕ :=
  ds.foldl (fun n c => 10 * n + (c.toNat - 48)) 0

/-- Value of a digit run read as a fraction, as in the `".25"` part of a
decimal literal. -/
def fracVal (ds : List Char) : ℚ :=
  (digitsVal ds : ℚ) / (10 ^ ds.length)

/-- `float(s)` for an unsigned body: a digit run, optionally followed by a
dot and another digit run, at least one digit in total, nothing else. -/
def parseUnsigned (cs : List Char) : Option ℚ :=
  let d1 := cs.takeWhile Char.isDigit
  match cs.drop d1.length with
  | [] => if d1 = [] then none else some (digitsVal d1)
  | '.' :: rest2 =>
    let d2 := rest2.takeWhile Char.isDigit
    if rest2.drop d2.length ≠ [] then none
    else if d1 = [] ∧ d2 = [] then none
    else some ((digitsVal d1 : ℚ) + fracVal d2)
  | _ => none

/-- `float(s)` with an optional leading sign. -/
def pyFloat (cs : List Char) : Option ℚ :=
  match cs with
  | '-' :: rest => (parseUnsigned rest).map (fun q => -q)
  | '+' :: rest => parseUnsigned rest
  | _ => parseUnsigned cs

/-- `re.sub(r"[^0-9.-]", "", s)`: keep only digits, dots and minus signs. -/
def keepNumChars (cs : List Char) : List Char :=
  cs.filter (fun c => c.isDigit || c = '.' || c = '-')

/-- `float(re.sub(r"[^0-9.-]", "", s) or 0)`: an empty filtered string is
falsy and becomes `float(0)`; a non-float filtered string raises (`none`). -/
def pyFloatOr0 (cs : List Char) : Option ℚ :=
  if keepNumChars cs = [] then some 0 else pyFloat (keepNumChars cs)

/-- A match of the regex `[-+]?[0-9]*\.?[0-9]+` anchored at the head of the
input, evaluated as a float: optional sign, greedy digit run, then a dot
plus a nonempty digit run if available (otherwise the dot is not consumed);
`none` when no digit can be matched here. -/
def matchNumAt (cs : List Char) : Option ℚ :=
  let core : List Char → Option ℚ := fun rest =>
    let d1 := rest.takeWhile Char.isDigit
    match rest.drop d1.length with
    | '.' :: rest2 =>
      let d2 := rest2.takeWhile Char.isDigit
      if d2 ≠ [] then some ((digitsVal d1 : ℚ) + fracVal d2)
      else if d1 ≠ [] then some (digitsVal d1) else none
    | _ => if d1 ≠ [] then some (digitsVal d1) else none
  match cs with
  | '-' :: rest => (core rest).map (fun q => -q)
  | '+' :: rest => core rest
  | _ => core cs

/-- First match of `re.findall(r"[-+]?[0-9]*\.?[0-9]+", s)`, scanning
left to right, evaluated as a float. -/
def findNum : List Char → Option ℚ
  | [] => none
  | c :: rest =>
    match matchNumAt (c :: rest) with
    | some q => some q
    | none => findNum rest

/-- `(re.findall(...)[0]) if re.findall(...) else 0.0`. -/
def findNumOr0 (cs : List Char) : ℚ := (findNum cs).getD 0

/-- `s.split(sep)` for a one-character separator. -/
def splitChar (sep : Char) (cs : List Char) : List (List Char) :=
  cs.foldr
    (fun c acc =>
      match acc with
      | [] => [[c]]
      | g :: gs => if c = sep then [] :: g :: gs else (c :: g) :: gs)
    [[]]

/-- `p.split(sep, 1)` guarded by `if sep in p`: the part before the first
separator and everything after it, or `none` when the separator is absent. -/
def splitFirst (sep : Char) : List Char → Option (List Char × List Char)
  | [] => none
  | c :: rest =>
    if c = sep then some ([], rest)
    else
      match splitFirst sep rest with
      | some kv => some (c :: kv.1, kv.2)
      | none => none

/-- The field dict built by the loop
`for p in parts: if ":" in p: k, v = p.split(":", 1); data[k] = v`. -/
def keyData (cs : List Char) : List (List Char × List Char) :=
  (splitChar '|' cs).foldl
    (fun d p =>
      match splitFirst ':' p with
      | some kv => alInsert d kv.1 kv.2
      | none => d)
    []

/-- `data.get(k, dflt)`. -/
def dataGet (d : List (List Char × List Char)) (k dflt : List Char) :
    List Char :=
  (alLookup d k).getD dflt

/-- `_key_to_vector(key)` (src/lib/utils.py lines 42–98): the nine-feature
vector `[in_spawn, empty, enemy, pop, troops, maxpop, conq, owned, rank]`,
or `none` when one of the three `float(re.sub(...) or 0)` conversions
raises. -/
def keyToVector (key : String) : Option (List ℚ) :=
  let data := keyData key.toList
  let inSpawn : ℚ :=
    if dataGet data "spawn".toList "False".toList ∈
        ["True".toList, "1".toList, "true".toList, "1.0".toList]
    then 1 else 0
  match pyFloatOr0 (dataGet data "empty".toList "0".toList),
      pyFloatOr0 (dataGet data "enemy".toList "0".toList),
      pyFloatOr0 (dataGet data "rank".toList "0".toList) with
  | some emptyCount, some enemyCount, some rank =>
    let pop := findNumOr0 (dataGet data "pop".toList "0".toList)
    let conq := findNumOr0 (dataGet data "conq".toList "0".toList)
    let owned := findNumOr0 (dataGet data "owned".toList
      (dataGet data "ownedCount".toList "0".toList))
    let troops := findNumOr0 (dataGet data "troops".toList "0".toList)
    let maxpop := findNumOr0 (dataGet data "maxpop".toList "0".toList)
    some [inSpawn, emptyCount, enemyCount, pop, troops, maxpop, conq, owned,
      rank]
  | _, _, _ => none

/-! ## Nearest-key search (`find_closest_state_by_key`,
src/lib/utils.py lines 219–235)

The Python loop compares `math.sqrt(sum((a-b)**2 ...))` values with `<`;
since the real square root is strictly monotone on nonnegative numbers,
the loop's comparisons are modelled on the exact squared distances and the
claim theorem is stated in terms of `Real.sqrt` of those. -/

/-- The squared Euclidean distance `sum((a - b) ** 2 for a, b in zip(v, w))`. -/
def distSq (v w : List ℚ) : ℚ :=
  (v.zip w).foldl (fun s p => s + (p.1 - p.2) ^ 2) 0

theorem distSq_nonneg (v w : List ℚ) : 0 ≤ distSq v w := by
  unfold distSq
  have h : ∀ (l : List (ℚ × ℚ)) (acc : ℚ), 0 ≤ acc →
      0 ≤ l.foldl (fun s p => s + (p.1 - p.2) ^ 2) acc := by
    intro l
    induction l with
    | nil => exact fun acc h => h
    | cons p rest ih =>
      exact fun acc hacc => ih _ (add_nonneg hacc (sq_nonneg _))
  exact h _ 0 le_rfl

/-- The squared distance from target vector `t` to the feature vector of a
stored key (the keys this is applied to all parse successfully). -/
def dOf (t : List ℚ) (k : String) : ℚ :=
  distSq t ((keyToVector k).getD [])

/-- One iteration of the scan loop of `find_closest_state_by_key`: a key
whose vector fails to parse is skipped (`continue`), and a key replaces the
running best `(best_key, best_dist)` only on strictly smaller distance, so
the first key attaining the minimum is kept. -/
def scanStep (t : List ℚ) (best : Option (String × ℚ)) (k : String) :
    Option (String × ℚ) :=
  match keyToVector k with
  | Option.none => best
  | some v =>
    match best with
    | Option.none => some (k, distSq t v)
    | some (bk, bd) =>
      if distSq t v < bd then some (k, distSq t v) else some (bk, bd)

/-- The key returned by the scan loop over all stored keys (the running
best starts as `None` / infinite distance). -/
def closestScan (t : List ℚ) (keys : List String) : Option String :=
  (keys.foldl (scanStep t) Option.none).map Prod.fst

/-- `find_closest_state_by_key(agent, state_key)` (src/lib/utils.py lines
219–235): the key itself when it is present in the table, `none` when its
vector fails to parse, otherwise the scan over all stored keys. -/
def findClosestStateByKey (qt : QT) (sk : String) : Option String :=
  if (alLookup qt sk).isSome then some sk
  else
    match keyToVector sk with
    | Option.none => Option.none
    | some t => closestScan t (qt.map Prod.fst)

theorem scanFold_spec (t : List ℚ) (keys : List String)
    (hp : ∀ k ∈ keys, (keyToVector k).isSome) (bk : String) (bd : ℚ) :
    (keys.foldl (scanStep t) (some (bk, bd)) = some (bk, bd) ∧
      ∀ k ∈ keys, bd ≤ dOf t k) ∨
    (∃ r l1 l2, keys = l1 ++ r :: l2 ∧
      keys.foldl (scanStep t) (some (bk, bd)) = some (r, dOf t r) ∧
      dOf t r < bd ∧ (∀ k ∈ keys, dOf t r ≤ dOf t k) ∧
      ∀ k ∈ l1, dOf t r < dOf t k) := by
  induction keys generalizing bk bd with
  | nil => exact Or.inl ⟨rfl, by simp⟩
  | cons k ks ih =>
    have hk : (keyToVector k).isSome := hp k (List.mem_cons_self _ _)
    obtain ⟨v, hv⟩ := Option.isSome_iff_exists.mp hk
    have hdof : dOf t k = distSq t v := by
      unfold dOf
      rw [hv]
      rfl
    have hp' : ∀ k' ∈ ks, (keyToVector k').isSome :=
      fun k' h' => hp k' (List.mem_cons_of_mem _ h')
    have hstep : scanStep t (some (bk, bd)) k =
        if distSq t v < bd then some (k, distSq t v) else some (bk, bd) := by
      simp only [scanStep, hv]
    rw [List.foldl_cons, hstep]
    by_cases hd : distSq t v < bd
    · rw [if_pos hd, ← hdof]
      rcases ih hp' k (dOf t k) with ⟨heq, hall⟩ |
        ⟨r, l1, l2, hsplit, heq, hlt, hall, hstrict⟩
      · right
        refine ⟨k, [], ks, by simp, heq, hdof ▸ hd, ?_, by simp⟩
        intro k' hk'
        rcases List.mem_cons.mp hk' with h | h
        · rw [h]
        · exact hall k' h
      · right
        refine ⟨r, k :: l1, l2, by rw [hsplit]; rfl, heq,
          lt_trans hlt (hdof ▸ hd), ?_, ?_⟩
        · intro k' hk'
          rcases List.mem_cons.mp hk' with h | h
          · rw [h]
            exact le_of_lt hlt
          · exact hall k' h
        · intro k' hk'
          rcases List.mem_cons.mp hk' with h | h
          · rw [h]
            exact hlt
          · exact hstrict k' h
    · rw [if_neg hd]
      push_neg at hd
      rcases ih hp' bk bd with ⟨heq, hall⟩ |
        ⟨r, l1, l2, hsplit, heq, hlt, hall, hstrict⟩
      · left
        refine ⟨heq, ?_⟩
        intro k' hk'
        rcases List.mem_cons.mp hk' with h | h
        · rw [h, hdof]
          exact hd
        · exact hall k' h
      · right
        refine ⟨r, k :: l1, l2, by rw [hsplit]; rfl, heq, hlt, ?_, ?_⟩
        · intro k' hk'
          rcases List.mem_cons.mp hk' with h | h
          · rw [h, hdof]
            exact le_of_lt (lt_of_lt_of_le hlt hd)
          · exact hall k' h
        · intro k' hk'
          rcases List.mem_cons.mp hk' with h | h
          · rw [h, hdof]
            exact lt_of_lt_of_le hlt hd
          · exact hstrict k' h

/-- The scan over a nonempty list of parseable keys returns the first key
attaining the minimal (squared) distance to the target. -/
theorem closestScan_spec (t : List ℚ) (keys : List String)
    (hp : ∀ k ∈ keys, (keyToVector k).isSome) (hne : keys ≠ []) :
    ∃ r l1 l2, keys = l1 ++ r :: l2 ∧ closestScan t keys = some r ∧
      (∀ k ∈ keys, dOf t r ≤ dOf t k) ∧ ∀ k ∈ l1, dOf t r < dOf t k := by
  match keys with
  | [] => exact absurd rfl hne
  | k :: ks =>
    have hk : (keyToVector k).isSome := hp k (List.mem_cons_self _ _)
    obtain ⟨v, hv⟩ := Option.isSome_iff_exists.mp hk
    have hdof : dOf t k = distSq t v := by
      unfold dOf
      rw [hv]
      rfl
    have hp' : ∀ k' ∈ ks, (keyToVector k').isSome :=
      fun k' h' => hp k' (List.mem_cons_of_mem _ h')
    have hstep : scanStep t Option.none k = some (k, distSq t v) := by
      simp only [scanStep, hv]
    unfold closestScan
    rw [List.foldl_cons, hstep, ← hdof]
    rcases scanFold_spec t ks hp' k (dOf t k) with ⟨heq, hall⟩ |
      ⟨r, l1, l2, hsplit, heq, hlt, hall, hstrict⟩
    · refine ⟨k, [], ks, by simp, by rw [heq]; rfl, ?_, by simp⟩
      intro k' hk'
      rcases List.mem_cons.mp hk' with h | h
      · rw [h]
      · exact hall k' h
    · refine ⟨r, k :: l1, l2, by rw [hsplit]; rfl, by rw [heq]; rfl, ?_, ?_⟩
      · intro k' hk'
        rcases List.mem_cons.mp hk' with h | h
        · rw [h]
          exact le_of_lt hlt
        · exact hall k' h
      · intro k' hk'
        rcases List.mem_cons.mp hk' with h | h
        · rw [h]
          exact hlt
        · exact hstrict k' h

/-- C4: for a state key that is not stored in the table, the fallback
search `find_closest_state_by_key` returns `None` on an empty table, and
on a nonempty table (all of whose keys parse to feature vectors) it
returns a stored key whose feature vector minimises the Euclidean distance
`math.sqrt(sum((a-b)**2 ...))` to the sought key's feature vector, taking
the first-seen key among the minimisers (every strictly earlier stored key
has strictly larger distance). -/
theorem c4_nearest_fallback (qt : QT) (sk : String) (t : List ℚ)
    (hmem : alLookup qt sk = none) (ht : keyToVector sk = some t)
    (hp : ∀ k ∈ qt.map Prod.fst, (keyToVector k).isSome) :
    (qt = [] → findClosestStateByKey qt sk = none) ∧
    (qt ≠ [] → ∃ r l1 l2, findClosestStateByKey qt sk = some r ∧
      qt.map Prod.fst = l1 ++ r :: l2 ∧
      (∀ k ∈ qt.map Prod.fst,
        Real.sqrt ((dOf t r : ℚ) : ℝ) ≤ Real.sqrt ((dOf t k : ℚ) : ℝ)) ∧
      ∀ k ∈ l1,
        Real.sqrt ((dOf t r : ℚ) : ℝ) < Real.sqrt ((dOf t k : ℚ) : ℝ)) := by
  have hbranch : findClosestStateByKey qt sk = closestScan t (qt.map Prod.fst) := by
    unfold findClosestStateByKey
    rw [hmem]
    show (match keyToVector sk with
      | Option.none => Option.none
      | some t => closestScan t (qt.map Prod.fst)) = _
    rw [ht]
  constructor
  · intro hq
    subst hq
    rw [hbranch]
    rfl
  · intro hq
    have hne : qt.map Prod.fst ≠ [] := by
      intro hc
      exact hq (List.map_eq_nil_iff.mp hc)
    obtain ⟨r, l1, l2, hsplit, heq, hall, hstrict⟩ :=
      closestScan_spec t (qt.map Prod.fst) hp hne
    refine ⟨r, l1, l2, by rw [hbranch, heq], hsplit, ?_, ?_⟩
    · intro k hk
      exact Real.sqrt_le_sqrt (by exact_mod_cast hall k hk)
    · intro k hk
      exact Real.sqrt_lt_sqrt
        (by exact_mod_cast distSq_nonneg t ((keyToVector r).getD []))
        (by exact_mod_cast hstrict k hk)

/-! ## The learning update

Two variants exist in the source: `Agent.update` (src/main.py lines
327–354, identical in src/bot.py lines 110–123) and the helper `update`
in src/lib/utils.py lines 162–197. Both first turn the previous/current
snapshots and the previous action into string keys via
`get_state_key`/`get_action_key` (src/main.py lines 83–102); the functions
below take those keys as arguments and embed everything from the key
computation onwards. -/

/-- `max(inner.values())` for a nonempty inner dict (callers only apply it
to nonempty dicts; Python `max` on an empty sequence raises). -/
def maxVals : List (String × ℚ) → ℚ
  | [] => 0
  | p :: rest => rest.foldl (fun m e => max m e.2) p.2

/-- `get_q_value(agent, state_key, action_key)` (src/lib/utils.py lines
101–109): direct lookup, else lookup through the nearest stored key. -/
def utilsGetQ (qt : QT) (sk ak : String) : ℚ :=
  match alLookup qt sk with
  | some inner => (alLookup inner ak).getD 0
  | Option.none =>
    match findClosestStateByKey qt sk with
    | some ck =>
      match alLookup qt ck with
      | some inner => (alLookup inner ak).getD 0
      | Option.none => 0
    | Option.none => 0

/-- The `else` branch of the bootstrap computation in `utils.update`
(src/lib/utils.py lines 183–185): substitute the nearest stored key's
maximal Q-value when it exists and its dict is nonempty. -/
def utilsClosestMax (qt : QT) (ck : String) : ℚ :=
  match findClosestStateByKey qt ck with
  | some c =>
    match alLookup qt c with
    | some inner => if inner ≠ [] then maxVals inner else 0
    | Option.none => 0
  | Option.none => 0

/-- The bootstrap term `max_next_q` of `utils.update` (src/lib/utils.py
lines 179–185): the maximum over the new state's dict when present and
nonempty, otherwise the nearest-neighbor substitute. -/
def utilsMaxNextQ (qt : QT) (ck : String) : ℚ :=
  match alLookup qt ck with
  | some inner => if inner ≠ [] then maxVals inner else utilsClosestMax qt ck
  | Option.none => utilsClosestMax qt ck

/-- `update(agent, state, reward)` (src/lib/utils.py lines 162–197) from
the point where the three keys have been computed: `prev_state_key = pk`,
`prev_action_key = pak`, `current_state_key = ck`. Seeds an unseen
previous state with a copy of its nearest stored key's dict, then stores
`current_q + alpha * (reward + gamma * max_next_q - current_q)`. -/
def utilsUpdateKeys (qt : QT) (pk pak ck : String) (rwd alpha gamma : ℚ) :
    QT :=
  qtSet
    (if alLookup qt pk = none then
      match findClosestStateByKey qt pk with
      | some c =>
        match alLookup qt c with
        | some inner => alInsert qt pk inner
        | Option.none => alInsert qt pk []
      | Option.none => alInsert qt pk []
    else qt)
    pk pak
    (utilsGetQ qt pk pak +
      alpha * (rwd + gamma * utilsMaxNextQ qt ck - utilsGetQ qt pk pak))

/-- `Agent.get_q_value` (src/main.py lines 256–260): plain lookup with
default 0, no nearest-neighbor substitution. -/
def agentGetQ (qt : QT) (sk ak : String) : ℚ :=
  match alLookup qt sk with
  | Option.none => 0
  | some inner => (alLookup inner ak).getD 0

/-- The bootstrap term of `Agent.update` (src/main.py lines 345–347):
`max(self.qtable[current_state_key].values())` when the key is present
with a nonempty dict, else 0 — no substitution. -/
def agentMaxNextQ (qt : QT) (ck : String) : ℚ :=
  match alLookup qt ck with
  | some inner => if inner ≠ [] then maxVals inner else 0
  | Option.none => 0

/-- `Agent.update` (src/main.py lines 327–354) from the point where the
three keys have been computed. -/
def agentUpdateKeys (qt : QT) (pk pak ck : String) (rwd alpha gamma : ℚ) :
    QT :=
  qtSet (if alLookup qt pk = none then alInsert qt pk [] else qt) pk pak
    (agentGetQ qt pk pak +
      alpha * (rwd + gamma * agentMaxNextQ qt ck - agentGetQ qt pk pak))

/-- C2 (amended). For `Agent.update` (src/main.py, and identically
src/bot.py): when the new state's key is unseen the bootstrap term is 0,
the stored value is `Q + alpha * (reward + gamma * 0 - Q)`, and in
particular with `Q(prevKey, prevAction) = 0` and reward 10 exactly
`alpha * 10` is stored. The helper `update` of src/lib/utils.py, however,
*does* substitute the nearest stored key's maximal Q-value into the
bootstrap term for an unseen new key, so the original unqualified claim is
false for it (see the counterexample). -/
theorem c2_bootstrap_unseen (qt : QT) (pk pak ck : String)
    (rwd alpha gamma : ℚ) (h : alLookup qt ck = none) :
    agentMaxNextQ qt ck = 0 ∧
    qtGet (agentUpdateKeys qt pk pak ck rwd alpha gamma) pk pak =
      some (agentGetQ qt pk pak +
        alpha * (rwd + gamma * 0 - agentGetQ qt pk pak)) ∧
    (agentGetQ qt pk pak = 0 → rwd = 10 →
      qtGet (agentUpdateKeys qt pk pak ck rwd alpha gamma) pk pak =
        some (alpha * 10)) := by
  have hmax : agentMaxNextQ qt ck = 0 := by
    unfold agentMaxNextQ
    rw [h]
  have key : qtGet (agentUpdateKeys qt pk pak ck rwd alpha gamma) pk pak =
      some (agentGetQ qt pk pak +
        alpha * (rwd + gamma * 0 - agentGetQ qt pk pak)) := by
    unfold agentUpdateKeys
    rw [hmax, qtGet_qtSet, if_pos ⟨rfl, rfl⟩]
  refine ⟨hmax, key, fun h0 hr => ?_⟩
  rw [key, h0, hr]
  exact congrArg some (by ring)

/-- C2 witness: `Agent.update` on an empty table with reward 10,
`alpha = 0.1`, `gamma = 0.95` stores exactly `alpha * 10`. -/
theorem c2_bootstrap_unseen_witness :
    alLookup ([] : QT) "c" = none ∧
    agentGetQ ([] : QT) "p" "a" = 0 ∧
    qtGet (agentUpdateKeys [] "p" "a" "c" 10 (1 / 10) (19 / 20)) "p" "a" =
      some ((1 / 10) * 10) :=
  ⟨rfl, rfl,
    (c2_bootstrap_unseen [] "p" "a" "c" 10 (1 / 10) (19 / 20) rfl).2.2 rfl rfl⟩

/-- C2 counterexample. For the helper `update` of src/lib/utils.py: table
`{"pop:5": {"n": 5}}`, previous key `"pop:1"` with
`Q(prevKey, prevAction) = 0`, reward 10, new key `"pop:2"` unseen. The
bootstrap term is 5 (the maximal value of the nearest stored key
`"pop:5"`), not 0, and the update stores
`0 + 0.1 * (10 + 0.95 * 5 - 0) = 1.475 = 59/40`, not
`alpha * 10 = 1`. -/
theorem c2_counterexample :
    alLookup ([("pop:5", [("n", (5 : ℚ))])] : QT) "pop:2" = none ∧
    utilsGetQ [("pop:5", [("n", (5 : ℚ))])] "pop:1" "a" = 0 ∧
    utilsMaxNextQ [("pop:5", [("n", (5 : ℚ))])] "pop:2" = 5 ∧
    qtGet (utilsUpdateKeys [("pop:5", [("n", (5 : ℚ))])] "pop:1" "a" "pop:2"
        10 (1 / 10) (19 / 20)) "pop:1" "a" = some (59 / 40) ∧
    (59 / 40 : ℚ) ≠ (1 / 10) * 10 := by
  refine ⟨by decide, by decide, ?_, ?_, by norm_num⟩
  · with_unfolding_all decide
  · with_unfolding_all decide

/-- C4 witness: the nearest-key theorem applied to the concrete table
`{"pop:5": {"n": 1}, "pop:1": {}}` and the unseen key `"pop:2"`. -/
theorem c4_nearest_fallback_witness :
    alLookup ([("pop:5", [("n", (1 : ℚ))]), ("pop:1", [])] : QT) "pop:2" =
      none ∧
    keyToVector "pop:2" = some [0, 0, 0, 2, 0, 0, 0, 0, 0] ∧
    (∀ k ∈ ([("pop:5", [("n", (1 : ℚ))]), ("pop:1", [])] : QT).map Prod.fst,
      (keyToVector k).isSome) ∧
    (([("pop:5", [("n", (1 : ℚ))]), ("pop:1", [])] : QT) ≠ []) ∧
    (∃ r l1 l2,
      findClosestStateByKey [("pop:5", [("n", (1 : ℚ))]), ("pop:1", [])]
        "pop:2" = some r ∧
      ([("pop:5", [("n", (1 : ℚ))]), ("pop:1", [])] : QT).map Prod.fst =
        l1 ++ r :: l2 ∧
      (∀ k ∈ ([("pop:5", [("n", (1 : ℚ))]), ("pop:1", [])] : QT).map
          Prod.fst,
        Real.sqrt ((dOf [0, 0, 0, 2, 0, 0, 0, 0, 0] r : ℚ) : ℝ) ≤
          Real.sqrt ((dOf [0, 0, 0, 2, 0, 0, 0, 0, 0] k : ℚ) : ℝ)) ∧
      ∀ k ∈ l1,
        Real.sqrt ((dOf [0, 0, 0, 2, 0, 0, 0, 0, 0] r : ℚ) : ℝ) <
          Real.sqrt ((dOf [0, 0, 0, 2, 0, 0, 0, 0, 0] k : ℚ) : ℝ)) :=
  ⟨by decide, by decide, by decide, by decide,
    (c4_nearest_fallback [("pop:5", [("n", (1 : ℚ))]), ("pop:1", [])]
      "pop:2" [0, 0, 0, 2, 0, 0, 0, 0, 0] (by decide) (by decide)
      (by decide)).2 (by decide)⟩

/-! ## Action selection (`Agent.best_action`, src/main.py lines 262–309 and
src/bot.py lines 85–108; helper `best_action`, src/lib/utils.py lines
112–159)

The two random draws of the Python code are passed in explicitly: `rnd`
stands for the `random.random()` result and `c1`/`c2`/`c3` index the three
possible `random.choice(possible_actions)` calls (a uniform choice is some
index into the list). The state key `sk` stands for
`get_state_key(state)`. -/

/-- `get_action_key(action)` (src/main.py lines 95–102). -/
def getActionKey (a : PAction) : String :=
  match a with
  | PAction.spawn x y => "spawn:" ++ toString x ++ "," ++ toString y
  | PAction.attack x y r =>
    "attack:" ++ toString x ++ "," ++ toString y ++ "|ratio:" ++ toString r
  | PAction.wait => "none"

/-- `random.choice(l)` with the uniform draw modelled as an index: the
element at `i % len(l)`, `none` on an empty list (where Python raises
`IndexError`). -/
def pyChoice (l : List PAction) (i : Nat) : Option PAction :=
  l.get? (i % l.length)

/-- `random.choice(l)` where the caller propagates the `IndexError` that an
empty list raises. -/
def pyChoiceE (l : List PAction) (i : Nat) : Except String PAction :=
  match pyChoice l i with
  | some a => Except.ok a
  | Option.none => Except.error "IndexError"

/-- The new-state seeding of `Agent.best_action` (src/main.py lines
279–283): an unseen state key gets an inner dict with a zero entry per
possible action. -/
def seedState (qt : QT) (sk : String) (actions : List PAction) : QT :=
  if alLookup qt sk = none then
    alInsert qt sk
      (actions.foldl (fun inner a => alInsert inner (getActionKey a) 0) [])
  else qt

/-- `possible_actions_keys = {get_action_key(a): a for a in actions}`
(src/main.py line 290): a dict comprehension, later duplicates win. -/
def buildActionMap (actions : List PAction) : List (String × PAction) :=
  actions.foldl (fun m a => alInsert m (getActionKey a) a) []

/-- The seeding loop over the possible-action keys (src/main.py lines
293–295): give every legal action key a zero entry if missing. -/
def seedInner (inner : List (String × ℚ)) (pak : List (String × PAction)) :
    List (String × ℚ) :=
  pak.foldl
    (fun inn p => if alLookup inn p.1 = none then alInsert inn p.1 0 else inn)
    inner

/-- `max(valid_q_actions, key=lambda item: item[1])` (src/main.py line
308): Python `max` keeps the first of several maximal elements, replacing
the running best only on a strictly greater key. -/
def pickBest (p : String × ℚ) (rest : List (String × ℚ)) : String × ℚ :=
  rest.foldl (fun b q => if q.2 > b.2 then q else b) p

/-- `Agent.best_action(state, possible_actions)` (src/main.py lines
262–309, identical in src/bot.py lines 85–108), from the point where
`state_key` has been computed; returns the chosen action (or `None`) and
the table after the seeding writes. -/
def mainBestAction (qt : QT) (eps : ℚ) (sk : String)
    (actions : List PAction) (rnd : ℚ) (c1 c2 c3 : Nat) :
    Option PAction × QT :=
  if actions = [] then (Option.none, qt)
  else
    let qt2 := seedState qt sk actions
    if rnd < eps then (pyChoice actions c1, qt2)
    else
      let pak := buildActionMap actions
      let inner := seedInner ((alLookup qt2 sk).getD []) pak
      let qt3 := alInsert qt2 sk inner
      match inner.filter (fun p => (alLookup pak p.1).isSome) with
      | [] => (pyChoice actions c2, qt3)
      | p :: rest =>
        match alLookup pak (pickBest p rest).1 with
        | some a => (some a, qt3)
        | Option.none => (pyChoice actions c3, qt3)

/-- `find_closest_state_key_by_state(agent, state)` (src/lib/utils.py
lines 200–216): `None` on an empty table or an unvectorisable state
(`stateVec` stands for `_state_to_vector(state)`), else the same scan as
`find_closest_state_by_key`. -/
def findClosestStateKeyByState (qt : QT) (stateVec : Option (List ℚ)) :
    Option String :=
  if qt = [] then Option.none
  else
    match stateVec with
    | Option.none => Option.none
    | some t => closestScan t (qt.map Prod.fst)

/-- The helper `best_action(agent, state, possible_actions)`
(src/lib/utils.py lines 112–159), from the point where `state_key` has
been computed. Differences from `Agent.best_action`: no empty-list guard
(so `random.choice` raises `IndexError` on an empty action list, modelled
by the `Except` error), and an unseen state key is seeded with a copy of
the nearest stored key's dict. -/
def utilsBestAction (qt : QT) (eps : ℚ) (sk : String)
    (stateVec : Option (List ℚ)) (actions : List PAction) (rnd : ℚ)
    (c1 c2 c3 : Nat) : Except String PAction × QT :=
  let qt2 :=
    if alLookup qt sk = none then
      let inner0 :=
        match findClosestStateKeyByState qt stateVec with
        | some ck =>
          match alLookup qt ck with
          | some inner => inner
          | Option.none => []
        | Option.none => []
      alInsert qt sk
        (actions.foldl
          (fun inn a =>
            if alLookup inn (getActionKey a) = none then
              alInsert inn (getActionKey a) 0
            else inn)
          inner0)
    else qt
  if rnd < eps then (pyChoiceE actions c1, qt2)
  else
    let pak := buildActionMap actions
    let inner := seedInner ((alLookup qt2 sk).getD []) pak
    let qt3 := alInsert qt2 sk inner
    match inner.filter (fun p => (alLookup pak p.1).isSome) with
    | [] => (pyChoiceE actions c2, qt3)
    | p :: rest =>
      match alLookup pak (pickBest p rest).1 with
      | some a => (Except.ok a, qt3)
      | Option.none => (pyChoiceE actions c3, qt3)

theorem pyChoice_isSome_mem (l : List PAction) (i : Nat) (h : l ≠ []) :
    ∃ a, pyChoice l i = some a ∧ a ∈ l := by
  have hlen : i % l.length < l.length :=
    Nat.mod_lt _ (List.length_pos.mpr h)
  refine ⟨l.get ⟨i % l.length, hlen⟩, ?_, List.get_mem l _ hlen⟩
  unfold pyChoice
  exact List.get?_eq_get hlen

theorem alInsert_forall {κ β : Type} [DecidableEq κ] (P : κ × β → Prop)
    (l : List (κ × β)) (k : κ) (v : β) (hl : ∀ p ∈ l, P p) (hv : P (k, v)) :
    ∀ p ∈ alInsert l k v, P p := by
  induction l with
  | nil =>
    intro p hp
    rcases List.mem_singleton.mp hp with h
    rw [h]
    exact hv
  | cons q t ih =>
    intro p hp
    by_cases hq : q.1 = k
    · rw [alInsert, if_pos hq] at hp
      rcases List.mem_cons.mp hp with h | h
      · rw [h]
        exact hv
      · exact hl p (List.mem_cons_of_mem _ h)
    · rw [alInsert, if_neg hq] at hp
      rcases List.mem_cons.mp hp with h | h
      · rw [h]
        exact hl q (List.mem_cons_self _ _)
      · exact ih (fun p' hp' => hl p' (List.mem_cons_of_mem _ hp')) p h

/-- Every value of the `{action_key: action}` dict is one of the actions. -/
theorem buildActionMap_values (actions : List PAction) :
    ∀ p ∈ buildActionMap actions, p.2 ∈ actions := by
  unfold buildActionMap
  have h : ∀ (l : List PAction) (acc : List (String × PAction)),
      (∀ p ∈ acc, p.2 ∈ actions) → (∀ a ∈ l, a ∈ actions) →
      ∀ p ∈ l.foldl (fun m a => alInsert m (getActionKey a) a) acc,
        p.2 ∈ actions := by
    intro l
    induction l with
    | nil => exact fun acc hacc _ => hacc
    | cons a rest ih =>
      intro acc hacc hl
      rw [List.foldl_cons]
      exact ih _
        (alInsert_forall _ acc (getActionKey a) a hacc
          (hl a (List.mem_cons_self _ _)))
        (fun a' h' => hl a' (List.mem_cons_of_mem _ h'))
  exact h actions [] (by simp) (fun a h => h)

theorem buildActionMap_lookup_mem (actions : List PAction) (k : String)
    (a : PAction) (h : alLookup (buildActionMap actions) k = some a) :
    a ∈ actions := by
  have hv := alLookup_mem_values _ _ _ h
  obtain ⟨p, hp, hps⟩ := List.mem_map.mp hv
  exact hps ▸ buildActionMap_values actions p hp

/-- The greedy branch of `Agent.best_action` always yields an element of
the action list: the filtered Q-entries either come up empty (random
fallback), name an action through the key dict, or miss it (random
fallback again). -/
theorem greedy_result (actions : List PAction) (hact : actions ≠ [])
    (inner : List (String × ℚ)) (qt3 : QT) (c2 c3 : Nat) :
    ∃ a,
      (match inner.filter
          (fun p : String × ℚ =>
            (alLookup (buildActionMap actions) p.1).isSome) with
        | [] => (pyChoice actions c2, qt3)
        | p :: rest =>
          match alLookup (buildActionMap actions) (pickBest p rest).1 with
          | some a => (some a, qt3)
          | Option.none => (pyChoice actions c3, qt3)).1 = some a ∧
      a ∈ actions := by
  cases hf : inner.filter
      (fun p => (alLookup (buildActionMap actions) p.1).isSome) with
  | nil => exact pyChoice_isSome_mem actions c2 hact
  | cons p rest =>
    show ∃ a,
      (match alLookup (buildActionMap actions) (pickBest p rest).1 with
        | some a => (some a, qt3)
        | Option.none => (pyChoice actions c3, qt3)).1 = some a ∧
      a ∈ actions
    cases hl : alLookup (buildActionMap actions) (pickBest p rest).1 with
    | none => exact pyChoice_isSome_mem actions c3 hact
    | some a => exact ⟨a, rfl, buildActionMap_lookup_mem actions _ a hl⟩

/-- C9 (amended). For `Agent.best_action` (src/main.py, and identically
src/bot.py): the selection returns `None` exactly on an empty action list,
and otherwise — in the exploration branch, the greedy branch and both of
its fallbacks — an element of the given list. The helper `best_action` of
src/lib/utils.py lacks the empty-list guard and instead raises an
`IndexError` from `random.choice([])` on an empty list (see the
counterexample). -/
theorem c9_selection_membership (qt : QT) (eps : ℚ) (sk : String)
    (actions : List PAction) (rnd : ℚ) (c1 c2 c3 : Nat) :
    ((mainBestAction qt eps sk actions rnd c1 c2 c3).1 = none ↔
      actions = []) ∧
    ∀ a, (mainBestAction qt eps sk actions rnd c1 c2 c3).1 = some a →
      a ∈ actions := by
  by_cases hact : actions = []
  · subst hact
    constructor
    · rw [mainBestAction]
      simp
    · intro a ha
      rw [mainBestAction] at ha
      simp at ha
  · have key : (∃ a, (mainBestAction qt eps sk actions rnd c1 c2 c3).1 =
        some a ∧ a ∈ actions) := by
      rw [mainBestAction, if_neg hact]
      by_cases hrnd : rnd < eps
      · rw [if_pos hrnd]
        exact pyChoice_isSome_mem actions c1 hact
      · rw [if_neg hrnd]
        exact greedy_result actions hact
          (seedInner ((alLookup (seedState qt sk actions) sk).getD [])
            (buildActionMap actions))
          (alInsert (seedState qt sk actions) sk
            (seedInner ((alLookup (seedState qt sk actions) sk).getD [])
              (buildActionMap actions)))
          c2 c3
    obtain ⟨a, ha, hmem⟩ := key
    constructor
    · rw [ha]
      constructor
      · intro hc
        cases hc
      · intro hc
        exact absurd hc hact
    · intro a' ha'
      rw [ha] at ha'
      injection ha' with he
      exact he ▸ hmem

/-- C9 witness: the selection theorem applied to a singleton action list
(nonempty, greedy branch) and the membership of its result. -/
theorem c9_selection_membership_witness :
    ((mainBestAction [] (1 / 5) "k" [PAction.wait] 1 0 0 0).1 = none ↔
      ([PAction.wait] : List PAction) = []) ∧
    ∀ a, (mainBestAction [] (1 / 5) "k" [PAction.wait] 1 0 0 0).1 = some a →
      a ∈ [PAction.wait] :=
  c9_selection_membership [] (1 / 5) "k" [PAction.wait] 1 0 0 0

/-- C9 counterexample. The helper `best_action` of src/lib/utils.py called
with an empty possible-action list does not return `None`: it reaches
`random.choice(possible_actions)` with an empty sequence, which raises
`IndexError` (here: the `Except.error`), refuting "returns None if and
only if the list of possible actions is empty" for that implementation. -/
theorem c9_counterexample :
    (utilsBestAction [] (1 / 5) "k" Option.none [] 0 0 0 0).1 =
      Except.error "IndexError" := by
  with_unfolding_all rfl

end GameAI
